import Mathlib

/- Shallow embedding of the wallet application of spend-sense_backend:
   src/wallet/models.py, src/wallet/serializers.py, src/wallet/views.py,
   src/wallet/tasks.py. Monetary DecimalField(max_digits = 12,
   decimal_places = 2) values are exact decimals with two decimal places:
   they are modelled as integers counting hundredths (for naira amounts,
   kobo), which loses nothing. Timestamps are integers (seconds), users
   numeric ids. -/

abbrev UserId := Nat

/-- Embeds wallet.models.Wallet: the fields balance and locked_balance
(DecimalField, max_digits 12, decimal_places 2), both defaulting to 0. -/
structure Wallet where
  balance : Int
  locked_balance : Int
deriving DecidableEq, Repr

/-- Embeds wallet.models.Transaction: user, tx_type, amount, reference
(unique), status. The timestamp field plays no role in the claims. -/
structure Transaction where
  user : UserId
  tx_type : String
  amount : Int
  reference : String
  status : String
deriving DecidableEq, Repr

/-- Embeds wallet.models.DisbursementPlan: user (OneToOne), plan_type,
amount_per_disbursement, active, next_disbursement. -/
structure DisbursementPlan where
  user : UserId
  plan_type : String
  amount_per_disbursement : Int
  active : Bool
  next_disbursement : Int
deriving DecidableEq, Repr

/-- The database state: the Wallet rows (keyed by user), the Transaction
rows, the DisbursementPlan rows, and a counter supplying fresh uuid
fragments for disbursement references. -/
structure State where
  wallets : List (UserId × Wallet)
  transactions : List Transaction
  plans : List DisbursementPlan
  uuidCount : Nat
deriving DecidableEq, Repr

instance : DecidableEq (Except State State) := fun a b =>
  match a, b with
  | .ok x, .ok y =>
    if h : x = y then isTrue (by rw [h]) else isFalse (by simp [h])
  | .error x, .error y =>
    if h : x = y then isTrue (by rw [h]) else isFalse (by simp [h])
  | .ok _, .error _ => isFalse (by simp)
  | .error _, .ok _ => isFalse (by simp)

/-- Wallet.objects.get(user = u) as an Option. -/
def walletGet (s : State) (u : UserId) : Option Wallet :=
  (s.wallets.find? (fun e => e.1 == u)).map (fun e => e.2)

/-- wallet.save(): update the row of user u in place. -/
def walletSave (s : State) (u : UserId) (w : Wallet) : State :=
  { s with wallets := s.wallets.map (fun e => if e.1 == u then (u, w) else e) }

/-- Wallet.objects.get_or_create(user = u): return the existing row, or
insert a fresh zero wallet. -/
def walletGetOrCreate (s : State) (u : UserId) : Wallet × State :=
  match walletGet s u with
  | some w => (w, s)
  | none => (⟨0, 0⟩, { s with wallets := s.wallets ++ [(u, ⟨0, 0⟩)] })

/-- DisbursementPlan row of user u. -/
def planGet (s : State) (u : UserId) : Option DisbursementPlan :=
  s.plans.find? (fun p => p.user == u)

/-- plan.save(): update the plan row of the same user in place. -/
def planSave (s : State) (p : DisbursementPlan) : State :=
  { s with plans := s.plans.map (fun q => if q.user == p.user then p else q) }

/-- DRF DecimalField(max_digits = 12, decimal_places = 2): the value has at
most two decimal places (intrinsic to the hundredths representation) and at
most twelve digits in all. No minimum value is configured, so negative and
zero amounts pass this validation. -/
def validDecimal (a : Int) : Bool :=
  decide (a.natAbs < 10 ^ 12)

/-- Outcome of WalletFundSerializer: success with the new state, the
validate_reference failure, or a DecimalField format failure. -/
inductive FundResult where
  | ok (s : State)
  | duplicateReference
  | invalidDecimal
deriving DecidableEq, Repr

/-- The state produced by WalletFundSerializer.create (serializers.py lines
185 to 218): get_or_create the wallet, add amount to balance, save, and
create a fund Transaction. -/
def fundSuccessState (s : State) (u : UserId) (amount : Int) (reference : String) : State :=
  let p := walletGetOrCreate s u
  let s2 := walletSave p.2 u ⟨p.1.balance + amount, p.1.locked_balance⟩
  { s2 with transactions := s2.transactions ++ [⟨u, "fund", amount, reference, "success"⟩] }

/-- Embeds WalletFundSerializer (serializers.py lines 141 to 218): field
validation, then validate_reference (reject an already used reference),
then create. There is no validation of the sign of amount. -/
def fund (s : State) (u : UserId) (amount : Int) (reference : String) : FundResult :=
  if !(validDecimal amount) then .invalidDecimal
  else if s.transactions.any (fun t => t.reference == reference) then .duplicateReference
  else .ok (fundSuccessState s u amount reference)

/-- The data object of a Paystack verification response. -/
structure GatewayData where
  status : String
  amount : Int
deriving DecidableEq, Repr

/-- A Paystack verification response: top level status flag, message, data. -/
structure GatewayResp where
  status : Bool
  message : String
  data : GatewayData
deriving DecidableEq, Repr

/-- Outcome of VerifyPaystackPaymentView.post. integrityError is the unique
constraint violation raised when Transaction.objects.get_or_create has to
create while another row already holds the reference. -/
inductive ConfirmStatus where
  | ok
  | gatewayError
  | paymentNotSuccessful
  | integrityError
deriving DecidableEq, Repr

/-- The credited amount of a verified gateway response: views.py line 218
divides the kobo amount by 100 to get naira; under the hundredths
representation of balances that conversion is the identity on the kobo
value. -/
def confirmAmount (verify : String → GatewayResp) (reference : String) : Int :=
  (verify reference).data.amount

/-- The state after the wallet credit of views.py lines 220 to 222: the
wallet is fetched with get_or_create, its balance is increased by the
converted amount, and it is saved. -/
def confirmCreditState (verify : String → GatewayResp) (s : State) (u : UserId)
    (reference : String) : State :=
  let p := walletGetOrCreate s u
  walletSave p.2 u ⟨p.1.balance + confirmAmount verify reference, p.1.locked_balance⟩

/-- Embeds VerifyPaystackPaymentView.post (views.py lines 199 to 232): check
the gateway response, on success convert the kobo amount, credit the wallet
balance and save, then Transaction.objects.get_or_create keyed on user,
tx_type, amount and reference. The balance credit happens before the
get_or_create lookup. The returned state holds in every case. -/
def confirmPayment (verify : String → GatewayResp) (s : State) (u : UserId)
    (reference : String) : ConfirmStatus × State :=
  let resp := verify reference
  if !resp.status then (.gatewayError, s)
  else if !(resp.data.status == "success") then (.paymentNotSuccessful, s)
  else
    let amount : Int := confirmAmount verify reference
    let s2 := confirmCreditState verify s u reference
    if s2.transactions.any (fun t =>
        t.user == u && t.tx_type == "fund" && decide (t.amount = amount)
          && t.reference == reference) then
      (.ok, s2)
    else if s2.transactions.any (fun t => t.reference == reference) then
      (.integrityError, s2)
    else
      (.ok, { s2 with transactions :=
        s2.transactions ++ [⟨u, "fund", amount, reference, "success"⟩] })

/-- timezone.timedelta(days = 1) in seconds. -/
def daySeconds : Int := 86400

/-- The advancement applied to next_disbursement by tasks.py lines 54 to 57:
one day for a daily plan, one week for a weekly plan, nothing otherwise. -/
def advanceOf (plan_type : String) : Int :=
  if plan_type == "daily" then daySeconds
  else if plan_type == "weekly" then 7 * daySeconds
  else 0

/-- The reference of a disbursement transaction, built from a fresh uuid
fragment, modelled by the state counter. -/
def disbReference (n : Nat) : String := "DISB-" ++ toString n

/-- The mutation performed by tasks.py lines 42 to 58 for a due plan with a
sufficient locked balance: move amount_per_disbursement from locked_balance
to balance and save, create a disburse Transaction, and advance
next_disbursement from its previous value by the plan cadence. -/
def disburseState (s : State) (p : DisbursementPlan) (w : Wallet) : State :=
  let s1 := walletSave s p.user
    ⟨w.balance + p.amount_per_disbursement, w.locked_balance - p.amount_per_disbursement⟩
  let s2 := { s1 with
    transactions := s1.transactions ++
      [⟨p.user, "disburse", p.amount_per_disbursement, disbReference s1.uuidCount, "success"⟩],
    uuidCount := s1.uuidCount + 1 }
  planSave s2 { p with next_disbursement := p.next_disbursement + advanceOf p.plan_type }

/-- Embeds the loop body of process_disbursements (tasks.py lines 36 to 58)
for one plan: fetch the wallet with Wallet.objects.get (a missing wallet
raises, modelled as an error carrying the state reached so far), skip when
locked_balance is below amount_per_disbursement, otherwise perform the
disbursement mutation. -/
def processPlan (s : State) (p : DisbursementPlan) : Except State State :=
  match walletGet s p.user with
  | none => .error s
  | some w =>
    if w.locked_balance < p.amount_per_disbursement then .ok s
    else .ok (disburseState s p w)

/-- The queryset of tasks.py line 34: active plans with
next_disbursement at or before now, evaluated before the loop starts. -/
def duePlans (s : State) (now : Int) : List DisbursementPlan :=
  s.plans.filter (fun p => p.active && decide (p.next_disbursement ≤ now))

/-- The loop of process_disbursements over a fixed plan list: an exception
for one plan propagates and aborts the rest of the loop. -/
def runPlans : State → List DisbursementPlan → Except State State
  | s, [] => .ok s
  | s, p :: rest =>
    match processPlan s p with
    | .error s1 => .error s1
    | .ok s1 => runPlans s1 rest

/-- Embeds process_disbursements (tasks.py lines 12 to 58). -/
def process_disbursements (now : Int) (s : State) : Except State State :=
  runPlans s (duePlans s now)

/-- The state an Except result leaves behind. -/
def exceptState (r : Except State State) : State :=
  match r with
  | .ok s => s
  | .error s => s

/-- The state after a fund call: unchanged when validation fails. -/
def fundState (s : State) (u : UserId) (amount : Int) (reference : String) : State :=
  match fund s u amount reference with
  | .ok s1 => s1
  | _ => s

/-- The operations of the system the invariant claims range over. -/
inductive Op where
  | fundOp (u : UserId) (amount : Int) (reference : String)
  | confirmOp (u : UserId) (reference : String)
  | disburseOp (now : Int)

/-- Apply one operation to the state. -/
def applyOp (verify : String → GatewayResp) (s : State) : Op → State
  | .fundOp u a r => fundState s u a r
  | .confirmOp u r => (confirmPayment verify s u r).2
  | .disburseOp now => exceptState (process_disbursements now s)

/-- Apply a sequence of operations in order. -/
def applyOps (verify : String → GatewayResp) (s : State) (ops : List Op) : State :=
  ops.foldl (applyOp verify) s

/-- Every wallet row has nonnegative balance and locked_balance. -/
abbrev StateNonneg (s : State) : Prop :=
  ∀ e ∈ s.wallets, 0 ≤ e.2.balance ∧ 0 ≤ e.2.locked_balance

/-- Every wallet row has nonnegative locked_balance. -/
abbrev LockedNonneg (s : State) : Prop :=
  ∀ e ∈ s.wallets, 0 ≤ e.2.locked_balance

/-- Every plan row has a nonnegative amount_per_disbursement. -/
abbrev PlansNonneg (s : State) : Prop :=
  ∀ p ∈ s.plans, 0 ≤ p.amount_per_disbursement

/-- The nonnegativity demanded of an operation: direct funding with a
nonnegative amount; the other operations carry no amount of their own. -/
def OpNonneg : Op → Prop
  | .fundOp _ a _ => 0 ≤ a
  | _ => True

/-- The empty database. -/
def initialState : State := ⟨[], [], [], 0⟩

/-- A gateway that verifies every reference successfully at a fixed kobo
amount. -/
def verifyAt (kobo : Int) : String → GatewayResp :=
  fun _ => ⟨true, "", ⟨"success", kobo⟩⟩

/-- Example: a daily plan for user 1 disbursing 3 per cycle, due at time 0. -/
def planA : DisbursementPlan := ⟨1, "daily", 3, true, 0⟩

/-- Example: user 1 holds balance 5 and locked balance 10, plan planA. -/
def stateA : State := ⟨[(1, ⟨5, 10⟩)], [], [planA], 0⟩

/-- Example: a daily plan for user 1 disbursing 30 per cycle, due at time 0. -/
def planB : DisbursementPlan := ⟨1, "daily", 30, true, 0⟩

/-- Example: user 1 holds locked balance 10, below the 30 of planB. -/
def stateB : State := ⟨[(1, ⟨5, 10⟩)], [], [planB], 0⟩

/-- Example: a due daily plan for user 1, who has no wallet row. -/
def planC1 : DisbursementPlan := ⟨1, "daily", 5, true, 0⟩

/-- Example: a due daily plan for user 2, who could be disbursed. -/
def planC2 : DisbursementPlan := ⟨2, "daily", 30, true, 0⟩

/-- Example: only user 2 has a wallet; both plans of stateC are due. -/
def stateC : State := ⟨[(2, ⟨0, 100⟩)], [], [planC1, planC2], 0⟩

/- Generic lemmas about keyed in-place updates of a row list. -/

theorem find?_keyfun_update_ne {α : Type} (key : α → UserId) (l : List α) (u v : UserId)
    (r : α) (hr : key r = u) (h : v ≠ u) :
    (l.map (fun x => if key x == u then r else x)).find? (fun x => key x == v)
      = l.find? (fun x => key x == v) := by
  have huv : (u == v) = false := by simp; exact fun e => h e.symm
  induction l with
  | nil => rfl
  | cons a l ih =>
    simp only [List.map_cons, List.find?_cons]
    by_cases hk : key a = u
    · have e1 : (if (key a == u) = true then r else a) = r := by simp [hk]
      have e2 : (key r == v) = false := by rw [hr]; exact huv
      have e3 : (key a == v) = false := by rw [hk]; exact huv
      rw [e1, e2, e3]
      exact ih
    · have e1 : (if (key a == u) = true then r else a) = a := by simp [hk]
      rw [e1]
      by_cases hv : key a = v
      · have e4 : (key a == v) = true := by simp [hv]
        rw [e4]
      · have e5 : (key a == v) = false := by simp [hv]
        rw [e5]
        exact ih

theorem find?_keyfun_update_self {α : Type} (key : α → UserId) (l : List α) (u : UserId)
    (r : α) (hr : key r = u)
    (h : (l.find? (fun x => key x == u)).isSome = true) :
    (l.map (fun x => if key x == u then r else x)).find? (fun x => key x == u) = some r := by
  induction l with
  | nil => simp at h
  | cons a l ih =>
    simp only [List.find?_cons] at h
    simp only [List.map_cons, List.find?_cons]
    by_cases hk : key a = u
    · have e1 : (if (key a == u) = true then r else a) = r := by simp [hk]
      have e2 : (key r == u) = true := by simp [hr]
      rw [e1, e2]
    · have e1 : (if (key a == u) = true then r else a) = a := by simp [hk]
      have e3 : (key a == u) = false := by simp [hk]
      rw [e3] at h
      rw [e1, e3]
      exact ih h

theorem keyfun_update_keys {α : Type} (key : α → UserId) (l : List α) (u : UserId)
    (r : α) (hr : key r = u) :
    (l.map (fun x => if key x == u then r else x)).map key = l.map key := by
  induction l with
  | nil => rfl
  | cons a l ih =>
    simp only [List.map_cons, ih]
    by_cases hk : key a = u
    · simp [hk, hr]
    · simp [hk]

theorem find?_key_isSome_of_keys_eq {α β : Type} (key : α → UserId) (key2 : β → UserId)
    (l : List α) (m : List β) (v : UserId) (h : l.map key = m.map key2) :
    (l.find? (fun x => key x == v)).isSome = (m.find? (fun x => key2 x == v)).isSome := by
  induction l generalizing m with
  | nil =>
    cases m with
    | nil => rfl
    | cons b m => simp at h
  | cons a l ih =>
    cases m with
    | nil => simp at h
    | cons b m =>
      simp only [List.map_cons, List.cons.injEq] at h
      simp only [List.find?_cons]
      by_cases hk : key a = v
      · have e1 : (key a == v) = true := by simp [hk]
        have e2 : (key2 b == v) = true := by rw [← h.1]; exact e1
        rw [e1, e2]
        rfl
      · have e1 : (key a == v) = false := by simp [hk]
        have e2 : (key2 b == v) = false := by rw [← h.1]; exact e1
        rw [e1, e2]
        exact ih m h.2

/- Store lemmas on the state. -/

theorem walletGet_save_ne (s : State) (u v : UserId) (w : Wallet) (h : v ≠ u) :
    walletGet (walletSave s u w) v = walletGet s v := by
  simp only [walletGet, walletSave]
  rw [find?_keyfun_update_ne Prod.fst s.wallets u v (u, w) rfl h]

theorem walletGet_save_self (s : State) (u : UserId) (w : Wallet)
    (h : (walletGet s u).isSome = true) :
    walletGet (walletSave s u w) u = some w := by
  simp only [walletGet, walletSave, Option.isSome_map'] at h ⊢
  rw [find?_keyfun_update_self Prod.fst s.wallets u (u, w) rfl h]
  rfl

theorem walletSave_keys (s : State) (u : UserId) (w : Wallet) :
    (walletSave s u w).wallets.map Prod.fst = s.wallets.map Prod.fst :=
  keyfun_update_keys Prod.fst s.wallets u (u, w) rfl

theorem planGet_save_ne (s : State) (p : DisbursementPlan) (v : UserId) (h : v ≠ p.user) :
    planGet (planSave s p) v = planGet s v := by
  simp only [planGet, planSave]
  rw [find?_keyfun_update_ne DisbursementPlan.user s.plans p.user v p rfl h]

theorem planGet_save_self (s : State) (p : DisbursementPlan)
    (h : (planGet s p.user).isSome = true) :
    planGet (planSave s p) p.user = some p := by
  simp only [planGet, planSave] at h ⊢
  rw [find?_keyfun_update_self DisbursementPlan.user s.plans p.user p rfl h]

theorem planSave_users (s : State) (p : DisbursementPlan) :
    (planSave s p).plans.map DisbursementPlan.user = s.plans.map DisbursementPlan.user :=
  keyfun_update_keys DisbursementPlan.user s.plans p.user p rfl

theorem walletGet_isSome_of_keys_eq (s1 s2 : State) (v : UserId)
    (h : s1.wallets.map Prod.fst = s2.wallets.map Prod.fst) :
    (walletGet s1 v).isSome = (walletGet s2 v).isSome := by
  simp only [walletGet, Option.isSome_map']
  exact find?_key_isSome_of_keys_eq Prod.fst Prod.fst s1.wallets s2.wallets v h

/- Case analysis of processPlan. -/

theorem processPlan_missing (s : State) (p : DisbursementPlan)
    (h : walletGet s p.user = none) : processPlan s p = .error s := by
  simp [processPlan, h]

theorem processPlan_skip (s : State) (p : DisbursementPlan) (w : Wallet)
    (h : walletGet s p.user = some w)
    (hlt : w.locked_balance < p.amount_per_disbursement) :
    processPlan s p = .ok s := by
  simp [processPlan, h, hlt]

theorem processPlan_disburse (s : State) (p : DisbursementPlan) (w : Wallet)
    (h : walletGet s p.user = some w)
    (hge : ¬ w.locked_balance < p.amount_per_disbursement) :
    processPlan s p = .ok (disburseState s p w) := by
  simp [processPlan, h, hge]

theorem disburseState_wallet_self (s : State) (p : DisbursementPlan) (w : Wallet)
    (h : walletGet s p.user = some w) :
    walletGet (disburseState s p w) p.user
      = some ⟨w.balance + p.amount_per_disbursement,
          w.locked_balance - p.amount_per_disbursement⟩ := by
  show walletGet (walletSave s p.user _) p.user = _
  exact walletGet_save_self s p.user _ (by rw [h]; rfl)

theorem disburseState_wallet_ne (s : State) (p : DisbursementPlan) (w : Wallet)
    (v : UserId) (hv : v ≠ p.user) :
    walletGet (disburseState s p w) v = walletGet s v := by
  show walletGet (walletSave s p.user _) v = _
  exact walletGet_save_ne s p.user v _ hv

theorem disburseState_plan_self (s : State) (p : DisbursementPlan) (w : Wallet)
    (h : (planGet s p.user).isSome = true) :
    planGet (disburseState s p w) p.user
      = some { p with next_disbursement := p.next_disbursement + advanceOf p.plan_type } := by
  exact planGet_save_self _ _ h

theorem disburseState_plan_ne (s : State) (p : DisbursementPlan) (w : Wallet)
    (v : UserId) (hv : v ≠ p.user) :
    planGet (disburseState s p w) v = planGet s v := by
  exact planGet_save_ne _ _ v hv

theorem disburseState_transactions (s : State) (p : DisbursementPlan) (w : Wallet) :
    (disburseState s p w).transactions
      = s.transactions ++
        [⟨p.user, "disburse", p.amount_per_disbursement, disbReference s.uuidCount, "success"⟩] := rfl

theorem disburseState_wallet_keys (s : State) (p : DisbursementPlan) (w : Wallet) :
    (disburseState s p w).wallets.map Prod.fst = s.wallets.map Prod.fst :=
  walletSave_keys s p.user _

theorem disburseState_plan_users (s : State) (p : DisbursementPlan) (w : Wallet) :
    (disburseState s p w).plans.map DisbursementPlan.user
      = s.plans.map DisbursementPlan.user :=
  planSave_users _ _

/- Lemmas about the scheduler loop. -/

theorem runPlans_cons (s : State) (p : DisbursementPlan) (L : List DisbursementPlan) :
    runPlans s (p :: L) = match processPlan s p with
      | .error s1 => .error s1
      | .ok s1 => runPlans s1 L := rfl

theorem runPlans_append (s : State) (L1 L2 : List DisbursementPlan) :
    runPlans s (L1 ++ L2) = match runPlans s L1 with
      | .ok s1 => runPlans s1 L2
      | .error s1 => .error s1 := by
  induction L1 generalizing s with
  | nil => rfl
  | cons p L1 ih =>
    simp only [List.cons_append, runPlans_cons]
    cases processPlan s p with
    | error s1 => rfl
    | ok s1 => exact ih s1

theorem runPlans_id (s : State) (L : List DisbursementPlan)
    (h : ∀ q ∈ L, processPlan s q = .ok s) : runPlans s L = .ok s := by
  induction L with
  | nil => rfl
  | cons p L ih =>
    rw [runPlans_cons, h p (List.mem_cons_self p L)]
    exact ih (fun q hq => h q (List.mem_cons_of_mem p hq))

theorem processPlan_keys (s : State) (p : DisbursementPlan) :
    (exceptState (processPlan s p)).wallets.map Prod.fst = s.wallets.map Prod.fst ∧
    (exceptState (processPlan s p)).plans.map DisbursementPlan.user
      = s.plans.map DisbursementPlan.user := by
  cases hw : walletGet s p.user with
  | none => rw [processPlan_missing s p hw]; exact ⟨rfl, rfl⟩
  | some w =>
    by_cases hlt : w.locked_balance < p.amount_per_disbursement
    · rw [processPlan_skip s p w hw hlt]; exact ⟨rfl, rfl⟩
    · rw [processPlan_disburse s p w hw hlt]
      exact ⟨disburseState_wallet_keys s p w, disburseState_plan_users s p w⟩

theorem runPlans_keys (L : List DisbursementPlan) (s : State) :
    (exceptState (runPlans s L)).wallets.map Prod.fst = s.wallets.map Prod.fst ∧
    (exceptState (runPlans s L)).plans.map DisbursementPlan.user
      = s.plans.map DisbursementPlan.user := by
  induction L generalizing s with
  | nil => exact ⟨rfl, rfl⟩
  | cons p L ih =>
    rw [runPlans_cons]
    cases hp : processPlan s p with
    | error t =>
      have hk := processPlan_keys s p
      rw [hp] at hk
      exact hk
    | ok t =>
      have hk := processPlan_keys s p
      rw [hp] at hk
      exact ⟨(ih t).1.trans hk.1, (ih t).2.trans hk.2⟩

theorem runPlans_frame (v : UserId) (L : List DisbursementPlan) (s : State)
    (hne : ∀ q ∈ L, q.user ≠ v)
    (hsome : ∀ q ∈ L, (walletGet s q.user).isSome = true) :
    ∃ s1, runPlans s L = .ok s1 ∧
      walletGet s1 v = walletGet s v ∧
      planGet s1 v = planGet s v ∧
      s1.transactions.filter (fun t => t.user == v)
        = s.transactions.filter (fun t => t.user == v) ∧
      s1.wallets.map Prod.fst = s.wallets.map Prod.fst ∧
      s1.plans.map DisbursementPlan.user = s.plans.map DisbursementPlan.user := by
  induction L generalizing s with
  | nil => exact ⟨s, rfl, rfl, rfl, rfl, rfl, rfl⟩
  | cons q L ih =>
    have hq : (walletGet s q.user).isSome = true := hsome q (List.mem_cons_self q L)
    cases hw : walletGet s q.user with
    | none => rw [hw] at hq; simp at hq
    | some w =>
      by_cases hlt : w.locked_balance < q.amount_per_disbursement
      · obtain ⟨s1, h1, h2, h3, h4, h5, h6⟩ := ih s
          (fun r hr => hne r (List.mem_cons_of_mem q hr))
          (fun r hr => hsome r (List.mem_cons_of_mem q hr))
        refine ⟨s1, ?_, h2, h3, h4, h5, h6⟩
        rw [runPlans_cons, processPlan_skip s q w hw hlt]
        exact h1
      · have hquv : v ≠ q.user := fun e => hne q (List.mem_cons_self q L) e.symm
        have hkeys := disburseState_wallet_keys s q w
        obtain ⟨s1, h1, h2, h3, h4, h5, h6⟩ := ih (disburseState s q w)
          (fun r hr => hne r (List.mem_cons_of_mem q hr))
          (fun r hr => by
            rw [walletGet_isSome_of_keys_eq (disburseState s q w) s r.user hkeys]
            exact hsome r (List.mem_cons_of_mem q hr))
        refine ⟨s1, ?_, ?_, ?_, ?_, ?_, ?_⟩
        · rw [runPlans_cons, processPlan_disburse s q w hw hlt]
          exact h1
        · rw [h2, disburseState_wallet_ne s q w v hquv]
        · rw [h3, disburseState_plan_ne s q w v hquv]
        · rw [h4, disburseState_transactions, List.filter_append]
          have hfu : ((⟨q.user, "disburse", q.amount_per_disbursement,
              disbReference s.uuidCount, "success"⟩ : Transaction).user == v) = false := by
            simp
            exact fun e => hquv e.symm
          simp [hfu]
        · rw [h5, hkeys]
        · rw [h6, disburseState_plan_users s q w]

/- Nodup and membership helpers. -/

theorem find?_keyfun_nodup_mem {α : Type} (key : α → UserId) (l : List α) (a : α)
    (hnd : (l.map key).Nodup) (ha : a ∈ l) :
    l.find? (fun x => key x == key a) = some a := by
  induction l with
  | nil => cases ha
  | cons b l ih =>
    rw [List.map_cons, List.nodup_cons] at hnd
    rcases List.mem_cons.mp ha with rfl | ha2
    · have e : (key a == key a) = true := by simp
      rw [List.find?_cons]
      simp only [e]
    · have hba : (key b == key a) = false := by
        simp only [beq_eq_false_iff_ne, ne_eq]
        intro e
        exact hnd.1 (e ▸ List.mem_map_of_mem key ha2)
      rw [List.find?_cons]
      simp only [hba]
      exact ih hnd.2 ha2

theorem planGet_nodup_mem (s : State) (p : DisbursementPlan)
    (hnd : (s.plans.map DisbursementPlan.user).Nodup) (hp : p ∈ s.plans) :
    planGet s p.user = some p :=
  find?_keyfun_nodup_mem DisbursementPlan.user s.plans p hnd hp

theorem duePlans_sublist (s : State) (now : Int) : List.Sublist (duePlans s now) s.plans :=
  List.filter_sublist s.plans

theorem duePlans_users_nodup (s : State) (now : Int)
    (hnd : (s.plans.map DisbursementPlan.user).Nodup) :
    ((duePlans s now).map DisbursementPlan.user).Nodup :=
  List.Nodup.sublist (List.Sublist.map DisbursementPlan.user (duePlans_sublist s now)) hnd

theorem mem_duePlans (s : State) (now : Int) (p : DisbursementPlan) :
    p ∈ duePlans s now ↔ p ∈ s.plans ∧ p.active = true ∧ p.next_disbursement ≤ now := by
  simp [duePlans, List.mem_filter, and_assoc]

theorem exists_split_of_mem_nodupkeys {α : Type} (key : α → UserId) (L : List α) (p : α)
    (hnd : (L.map key).Nodup) (hp : p ∈ L) :
    ∃ L1 L2, L = L1 ++ p :: L2 ∧ (∀ q ∈ L1, key q ≠ key p) ∧ (∀ q ∈ L2, key q ≠ key p) := by
  obtain ⟨L1, L2, rfl⟩ := List.append_of_mem hp
  refine ⟨L1, L2, rfl, ?_, ?_⟩
  · intro q hq e
    rw [List.map_append, List.nodup_append] at hnd
    exact hnd.2.2 (List.mem_map_of_mem key hq)
      (by rw [List.map_cons]; exact e ▸ List.mem_cons_self _ _)
  · intro q hq e
    rw [List.map_append, List.map_cons, List.nodup_append] at hnd
    exact (List.nodup_cons.mp hnd.2.1).1 (e ▸ List.mem_map_of_mem key hq)

/- One scheduler run, seen from one due plan. -/

theorem run_disburses (now : Int) (s : State) (p : DisbursementPlan) (w : Wallet)
    (hnd : (s.plans.map DisbursementPlan.user).Nodup)
    (hmem : p ∈ duePlans s now)
    (hw : walletGet s p.user = some w)
    (hge : ¬ w.locked_balance < p.amount_per_disbursement)
    (hall : ∀ q ∈ duePlans s now, (walletGet s q.user).isSome = true) :
    ∃ s2, process_disbursements now s = .ok s2 ∧
      walletGet s2 p.user = some ⟨w.balance + p.amount_per_disbursement,
        w.locked_balance - p.amount_per_disbursement⟩ ∧
      planGet s2 p.user
        = some { p with next_disbursement := p.next_disbursement + advanceOf p.plan_type } ∧
      (∃ ref, s2.transactions.filter (fun t => t.user == p.user)
        = s.transactions.filter (fun t => t.user == p.user)
          ++ [⟨p.user, "disburse", p.amount_per_disbursement, ref, "success"⟩]) ∧
      s2.wallets.map Prod.fst = s.wallets.map Prod.fst ∧
      s2.plans.map DisbursementPlan.user = s.plans.map DisbursementPlan.user := by
  obtain ⟨L1, L2, hsplit, hne1, hne2⟩ := exists_split_of_mem_nodupkeys
    DisbursementPlan.user (duePlans s now) p (duePlans_users_nodup s now hnd) hmem
  have hmem1 : ∀ q ∈ L1, q ∈ duePlans s now := by
    intro q hq; rw [hsplit]; exact List.mem_append_left _ hq
  have hmem2 : ∀ q ∈ L2, q ∈ duePlans s now := by
    intro q hq; rw [hsplit]
    exact List.mem_append_right _ (List.mem_cons_of_mem p hq)
  obtain ⟨sm, hrun1, hw1, hp1, ht1, hk1, hpk1⟩ := runPlans_frame p.user L1 s hne1
    (fun q hq => hall q (hmem1 q hq))
  have hwsm : walletGet sm p.user = some w := hw1.trans hw
  have hpget : planGet s p.user = some p :=
    planGet_nodup_mem s p hnd ((mem_duePlans s now p).mp hmem).1
  have hpsm : planGet sm p.user = some p := hp1.trans hpget
  have hkt := disburseState_wallet_keys sm p w
  obtain ⟨s2, hrun2, hw2, hp2, ht2, hk2, hpk2⟩ := runPlans_frame p.user L2
    (disburseState sm p w) hne2
    (fun q hq => by
      rw [walletGet_isSome_of_keys_eq (disburseState sm p w) s q.user (hkt.trans hk1)]
      exact hall q (hmem2 q hq))
  refine ⟨s2, ?_, ?_, ?_, ?_, ?_, ?_⟩
  · unfold process_disbursements
    rw [hsplit, runPlans_append, hrun1]
    show runPlans sm (p :: L2) = .ok s2
    rw [runPlans_cons, processPlan_disburse sm p w hwsm hge]
    exact hrun2
  · rw [hw2]
    exact disburseState_wallet_self sm p w hwsm
  · rw [hp2]
    exact disburseState_plan_self sm p w (by rw [hpsm]; rfl)
  · refine ⟨disbReference sm.uuidCount, ?_⟩
    rw [ht2, disburseState_transactions, List.filter_append, ht1]
    have e : ((⟨p.user, "disburse", p.amount_per_disbursement,
        disbReference sm.uuidCount, "success"⟩ : Transaction).user == p.user) = true := by
      simp
    simp [e]
  · rw [hk2, hkt, hk1]
  · rw [hpk2, disburseState_plan_users sm p w, hpk1]

theorem run_skips (now : Int) (s : State) (p : DisbursementPlan) (w : Wallet)
    (hnd : (s.plans.map DisbursementPlan.user).Nodup)
    (hmem : p ∈ duePlans s now)
    (hw : walletGet s p.user = some w)
    (hlt : w.locked_balance < p.amount_per_disbursement)
    (hall : ∀ q ∈ duePlans s now, (walletGet s q.user).isSome = true) :
    ∃ s2, process_disbursements now s = .ok s2 ∧
      walletGet s2 p.user = some w ∧
      planGet s2 p.user = some p ∧
      s2.transactions.filter (fun t => t.user == p.user)
        = s.transactions.filter (fun t => t.user == p.user) ∧
      s2.wallets.map Prod.fst = s.wallets.map Prod.fst ∧
      s2.plans.map DisbursementPlan.user = s.plans.map DisbursementPlan.user := by
  obtain ⟨L1, L2, hsplit, hne1, hne2⟩ := exists_split_of_mem_nodupkeys
    DisbursementPlan.user (duePlans s now) p (duePlans_users_nodup s now hnd) hmem
  have hmem1 : ∀ q ∈ L1, q ∈ duePlans s now := by
    intro q hq; rw [hsplit]; exact List.mem_append_left _ hq
  have hmem2 : ∀ q ∈ L2, q ∈ duePlans s now := by
    intro q hq; rw [hsplit]
    exact List.mem_append_right _ (List.mem_cons_of_mem p hq)
  obtain ⟨sm, hrun1, hw1, hp1, ht1, hk1, hpk1⟩ := runPlans_frame p.user L1 s hne1
    (fun q hq => hall q (hmem1 q hq))
  have hwsm : walletGet sm p.user = some w := hw1.trans hw
  have hpget : planGet s p.user = some p :=
    planGet_nodup_mem s p hnd ((mem_duePlans s now p).mp hmem).1
  obtain ⟨s2, hrun2, hw2, hp2, ht2, hk2, hpk2⟩ := runPlans_frame p.user L2 sm hne2
    (fun q hq => by
      rw [walletGet_isSome_of_keys_eq sm s q.user hk1]
      exact hall q (hmem2 q hq))
  refine ⟨s2, ?_, ?_, ?_, ?_, ?_, ?_⟩
  · unfold process_disbursements
    rw [hsplit, runPlans_append, hrun1]
    show runPlans sm (p :: L2) = .ok s2
    rw [runPlans_cons, processPlan_skip sm p w hwsm hlt]
    exact hrun2
  · exact hw2.trans hwsm
  · exact hp2.trans (hp1.trans hpget)
  · exact ht2.trans ht1
  · exact hk2.trans hk1
  · exact hpk2.trans hpk1

/- Membership and get_or_create lemmas. -/

theorem walletGet_mem (s : State) (u : UserId) (w : Wallet)
    (h : walletGet s u = some w) : (u, w) ∈ s.wallets := by
  simp only [walletGet] at h
  cases he : s.wallets.find? (fun e => e.1 == u) with
  | none => rw [he] at h; simp at h
  | some e =>
    rw [he] at h
    have hm := List.mem_of_find?_eq_some he
    have hk := List.find?_some he
    simp at h
    simp only [beq_iff_eq] at hk
    have : e = (u, w) := by
      cases e
      simp only [Prod.mk.injEq]
      exact ⟨hk, h⟩
    rw [← this]
    exact hm

theorem mem_walletSave (s : State) (u : UserId) (w : Wallet) (e : UserId × Wallet)
    (he : e ∈ (walletSave s u w).wallets) : e = (u, w) ∨ e ∈ s.wallets := by
  simp only [walletSave, List.mem_map] at he
  obtain ⟨x, hx, hxe⟩ := he
  by_cases hk : x.1 = u
  · left
    rw [← hxe]
    simp [hk]
  · right
    rw [← hxe, if_neg (by simp [hk])]
    exact hx

theorem mem_planSave (s : State) (p : DisbursementPlan) (q : DisbursementPlan)
    (hq : q ∈ (planSave s p).plans) : q = p ∨ q ∈ s.plans := by
  simp only [planSave, List.mem_map] at hq
  obtain ⟨x, hx, hxq⟩ := hq
  by_cases hk : x.user = p.user
  · left
    rw [← hxq]
    simp [hk]
  · right
    rw [← hxq, if_neg (by simp [hk])]
    exact hx

theorem walletGetOrCreate_get (s : State) (u : UserId) :
    walletGet (walletGetOrCreate s u).2 u = some (walletGetOrCreate s u).1 := by
  unfold walletGetOrCreate
  cases hg : walletGet s u with
  | some w => exact hg
  | none =>
    show walletGet { s with wallets := s.wallets ++ [(u, ⟨0, 0⟩)] } u = some ⟨0, 0⟩
    simp only [walletGet, List.find?_append]
    have : s.wallets.find? (fun e => e.1 == u) = none := by
      simp only [walletGet] at hg
      cases he : s.wallets.find? (fun e => e.1 == u) with
      | none => rfl
      | some e => rw [he] at hg; simp at hg
    rw [this]
    simp

theorem walletGetOrCreate_get_ne (s : State) (u v : UserId) (hv : v ≠ u) :
    walletGet (walletGetOrCreate s u).2 v = walletGet s v := by
  unfold walletGetOrCreate
  cases hg : walletGet s u with
  | some w => rfl
  | none =>
    show walletGet { s with wallets := s.wallets ++ [(u, ⟨0, 0⟩)] } v = walletGet s v
    simp only [walletGet, List.find?_append]
    have : List.find? (fun e => e.1 == v) [((u : UserId), (⟨0, 0⟩ : Wallet))] = none := by
      simp
      exact fun e => hv e.symm
    rw [this, Option.or_none]

theorem walletGetOrCreate_some (s : State) (u : UserId) (w : Wallet)
    (h : walletGet s u = some w) : walletGetOrCreate s u = (w, s) := by
  unfold walletGetOrCreate
  rw [h]

theorem walletGetOrCreate_transactions (s : State) (u : UserId) :
    (walletGetOrCreate s u).2.transactions = s.transactions := by
  unfold walletGetOrCreate
  cases hg : walletGet s u with
  | some w => rfl
  | none => rfl

theorem walletGetOrCreate_plans (s : State) (u : UserId) :
    (walletGetOrCreate s u).2.plans = s.plans := by
  unfold walletGetOrCreate
  cases hg : walletGet s u with
  | some w => rfl
  | none => rfl

/- Characterization of fund and confirmPayment. -/

theorem fund_ok_inversion (s : State) (u : UserId) (a : Int) (r : String) (s1 : State)
    (h : fund s u a r = .ok s1) :
    validDecimal a = true ∧
    s.transactions.any (fun t => t.reference == r) = false ∧
    s1 = fundSuccessState s u a r := by
  unfold fund at h
  by_cases h1 : validDecimal a
  · by_cases h2 : s.transactions.any (fun t => t.reference == r) = true
    · rw [if_neg (by simp [h1]), if_pos h2] at h
      cases h
    · rw [if_neg (by simp [h1]), if_neg h2] at h
      simp only [FundResult.ok.injEq] at h
      exact ⟨h1, by simpa using h2, h.symm⟩
  · rw [if_pos (by simp [h1])] at h
    cases h

theorem fund_ok (s : State) (u : UserId) (a : Int) (r : String)
    (h1 : validDecimal a = true)
    (h2 : s.transactions.any (fun t => t.reference == r) = false) :
    fund s u a r = .ok (fundSuccessState s u a r) := by
  unfold fund
  rw [if_neg (by simp [h1]), if_neg (by simp [h2])]

theorem fundState_cases (s : State) (u : UserId) (a : Int) (r : String) :
    fundState s u a r = s ∨ fundState s u a r = fundSuccessState s u a r := by
  unfold fundState
  cases hf : fund s u a r with
  | ok s1 =>
    right
    exact (fund_ok_inversion s u a r s1 hf).2.2
  | duplicateReference => left; rfl
  | invalidDecimal => left; rfl

theorem fundSuccessState_wallet_self (s : State) (u : UserId) (a : Int) (r : String) :
    walletGet (fundSuccessState s u a r) u
      = some ⟨(walletGetOrCreate s u).1.balance + a,
          (walletGetOrCreate s u).1.locked_balance⟩ := by
  show walletGet (walletSave (walletGetOrCreate s u).2 u _) u = _
  exact walletGet_save_self _ u _ (by rw [walletGetOrCreate_get]; rfl)

theorem fundSuccessState_wallet_ne (s : State) (u : UserId) (a : Int) (r : String)
    (v : UserId) (hv : v ≠ u) :
    walletGet (fundSuccessState s u a r) v = walletGet s v := by
  show walletGet (walletSave (walletGetOrCreate s u).2 u _) v = _
  rw [walletGet_save_ne _ u v _ hv, walletGetOrCreate_get_ne s u v hv]

theorem fundSuccessState_transactions (s : State) (u : UserId) (a : Int) (r : String) :
    (fundSuccessState s u a r).transactions
      = s.transactions ++ [⟨u, "fund", a, r, "success"⟩] := by
  show (walletGetOrCreate s u).2.transactions ++ _ = _
  rw [walletGetOrCreate_transactions]

theorem fundSuccessState_plans (s : State) (u : UserId) (a : Int) (r : String) :
    (fundSuccessState s u a r).plans = s.plans := by
  show (walletGetOrCreate s u).2.plans = _
  rw [walletGetOrCreate_plans]

theorem confirmCreditState_wallet_self (verify : String → GatewayResp) (s : State)
    (u : UserId) (r : String) :
    walletGet (confirmCreditState verify s u r) u
      = some ⟨(walletGetOrCreate s u).1.balance + confirmAmount verify r,
          (walletGetOrCreate s u).1.locked_balance⟩ := by
  show walletGet (walletSave (walletGetOrCreate s u).2 u _) u = _
  exact walletGet_save_self _ u _ (by rw [walletGetOrCreate_get]; rfl)

theorem confirmCreditState_wallet_ne (verify : String → GatewayResp) (s : State)
    (u : UserId) (r : String) (v : UserId) (hv : v ≠ u) :
    walletGet (confirmCreditState verify s u r) v = walletGet s v := by
  show walletGet (walletSave (walletGetOrCreate s u).2 u _) v = _
  rw [walletGet_save_ne _ u v _ hv, walletGetOrCreate_get_ne s u v hv]

theorem confirmCreditState_plans (verify : String → GatewayResp) (s : State)
    (u : UserId) (r : String) :
    (confirmCreditState verify s u r).plans = s.plans := by
  show (walletGetOrCreate s u).2.plans = _
  rw [walletGetOrCreate_plans]

theorem confirmPayment_state_cases (verify : String → GatewayResp) (s : State)
    (u : UserId) (r : String) :
    (confirmPayment verify s u r).2 = s ∨
    (confirmPayment verify s u r).2 = confirmCreditState verify s u r ∨
    (confirmPayment verify s u r).2 = { confirmCreditState verify s u r with
      transactions := (confirmCreditState verify s u r).transactions ++
        [⟨u, "fund", confirmAmount verify r, r, "success"⟩] } := by
  unfold confirmPayment
  by_cases h1 : (verify r).status
  · by_cases h2 : ((verify r).data.status == "success") = true
    · rw [if_neg (by simp [h1]), if_neg (by simp [h2])]
      by_cases h3 : ((confirmCreditState verify s u r).transactions.any (fun t =>
          t.user == u && t.tx_type == "fund"
            && decide (t.amount = confirmAmount verify r) && t.reference == r)) = true
      · rw [if_pos h3]
        right; left; rfl
      · rw [if_neg h3]
        by_cases h4 : ((confirmCreditState verify s u r).transactions.any
            (fun t => t.reference == r)) = true
        · rw [if_pos h4]
          right; left; rfl
        · rw [if_neg h4]
          right; right; rfl
    · rw [if_neg (by simp [h1]), if_pos (by simp [h2])]
      left; rfl
  · rw [if_pos (by simp [h1])]
    left; rfl

/- Preservation of nonnegativity. -/

theorem walletGetOrCreate_nonneg (s : State) (u : UserId) (hs : StateNonneg s) :
    StateNonneg (walletGetOrCreate s u).2 ∧
    0 ≤ (walletGetOrCreate s u).1.balance ∧
    0 ≤ (walletGetOrCreate s u).1.locked_balance := by
  unfold walletGetOrCreate
  cases hg : walletGet s u with
  | some w =>
    have hm := walletGet_mem s u w hg
    exact ⟨hs, (hs _ hm).1, (hs _ hm).2⟩
  | none =>
    refine ⟨?_, le_refl 0, le_refl 0⟩
    intro e he
    rcases List.mem_append.mp he with he1 | he2
    · exact hs e he1
    · have he3 : e = (u, ⟨0, 0⟩) := by simpa using he2
      rw [he3]
      exact ⟨le_refl 0, le_refl 0⟩

theorem StateNonneg_walletSave (s : State) (u : UserId) (w : Wallet)
    (hs : StateNonneg s) (hb : 0 ≤ w.balance) (hl : 0 ≤ w.locked_balance) :
    StateNonneg (walletSave s u w) := by
  intro e he
  rcases mem_walletSave s u w e he with rfl | he2
  · exact ⟨hb, hl⟩
  · exact hs e he2

theorem StateNonneg_fundSuccessState (s : State) (u : UserId) (a : Int) (r : String)
    (hs : StateNonneg s) (ha : 0 ≤ a) : StateNonneg (fundSuccessState s u a r) := by
  have hg := walletGetOrCreate_nonneg s u hs
  intro e he
  exact StateNonneg_walletSave (walletGetOrCreate s u).2 u
    ⟨(walletGetOrCreate s u).1.balance + a, (walletGetOrCreate s u).1.locked_balance⟩
    hg.1 (add_nonneg hg.2.1 ha) hg.2.2 e he

theorem fundState_plans (s : State) (u : UserId) (a : Int) (r : String) :
    (fundState s u a r).plans = s.plans := by
  rcases fundState_cases s u a r with h | h
  · rw [h]
  · rw [h, fundSuccessState_plans]

theorem fund_preserves_nonneg (s : State) (u : UserId) (a : Int) (r : String)
    (hs : StateNonneg s) (ha : 0 ≤ a) : StateNonneg (fundState s u a r) := by
  rcases fundState_cases s u a r with h | h
  · rw [h]; exact hs
  · rw [h]; exact StateNonneg_fundSuccessState s u a r hs ha

theorem StateNonneg_confirmCreditState (verify : String → GatewayResp) (s : State)
    (u : UserId) (r : String) (hs : StateNonneg s)
    (hv : 0 ≤ (verify r).data.amount) :
    StateNonneg (confirmCreditState verify s u r) := by
  have hg := walletGetOrCreate_nonneg s u hs
  intro e he
  exact StateNonneg_walletSave (walletGetOrCreate s u).2 u
    ⟨(walletGetOrCreate s u).1.balance + confirmAmount verify r,
      (walletGetOrCreate s u).1.locked_balance⟩
    hg.1 (add_nonneg hg.2.1 hv) hg.2.2 e he

theorem confirm_preserves_nonneg (verify : String → GatewayResp) (s : State)
    (u : UserId) (r : String) (hs : StateNonneg s)
    (hv : 0 ≤ (verify r).data.amount) :
    StateNonneg (confirmPayment verify s u r).2 := by
  rcases confirmPayment_state_cases verify s u r with h | h | h
  · rw [h]; exact hs
  · rw [h]; exact StateNonneg_confirmCreditState verify s u r hs hv
  · rw [h]
    intro e he
    exact StateNonneg_confirmCreditState verify s u r hs hv e he

theorem confirmPayment_plans (verify : String → GatewayResp) (s : State)
    (u : UserId) (r : String) :
    ((confirmPayment verify s u r).2).plans = s.plans := by
  rcases confirmPayment_state_cases verify s u r with h | h | h
  · rw [h]
  · rw [h, confirmCreditState_plans]
  · rw [h]
    exact confirmCreditState_plans verify s u r

theorem processPlan_preserves_nonneg (s : State) (p : DisbursementPlan)
    (hs : StateNonneg s) (hp : 0 ≤ p.amount_per_disbursement) :
    StateNonneg (exceptState (processPlan s p)) := by
  cases hw : walletGet s p.user with
  | none => rw [processPlan_missing s p hw]; exact hs
  | some w =>
    by_cases hlt : w.locked_balance < p.amount_per_disbursement
    · rw [processPlan_skip s p w hw hlt]; exact hs
    · rw [processPlan_disburse s p w hw hlt]
      intro e he
      have hwmem := walletGet_mem s p.user w hw
      have hsav : StateNonneg (walletSave s p.user
          ⟨w.balance + p.amount_per_disbursement,
            w.locked_balance - p.amount_per_disbursement⟩) :=
        StateNonneg_walletSave s p.user _ hs
          (add_nonneg (hs _ hwmem).1 hp)
          (sub_nonneg.mpr (not_lt.mp hlt))
      exact hsav e he

theorem processPlan_preserves_plansNonneg (s : State) (p : DisbursementPlan)
    (hp : PlansNonneg s) (hpa : 0 ≤ p.amount_per_disbursement) :
    PlansNonneg (exceptState (processPlan s p)) := by
  cases hw : walletGet s p.user with
  | none => rw [processPlan_missing s p hw]; exact hp
  | some w =>
    by_cases hlt : w.locked_balance < p.amount_per_disbursement
    · rw [processPlan_skip s p w hw hlt]; exact hp
    · rw [processPlan_disburse s p w hw hlt]
      intro q hq
      rcases mem_planSave _ _ q hq with rfl | hq2
      · exact hpa
      · exact hp q hq2

theorem runPlans_preserves_nonneg (L : List DisbursementPlan) (s : State)
    (hs : StateNonneg s) (hp : PlansNonneg s)
    (hL : ∀ q ∈ L, 0 ≤ q.amount_per_disbursement) :
    StateNonneg (exceptState (runPlans s L)) ∧
    PlansNonneg (exceptState (runPlans s L)) := by
  induction L generalizing s with
  | nil => exact ⟨hs, hp⟩
  | cons q L ih =>
    rw [runPlans_cons]
    have hq := hL q (List.mem_cons_self q L)
    have h1 := processPlan_preserves_nonneg s q hs hq
    have h2 := processPlan_preserves_plansNonneg s q hp hq
    cases hpq : processPlan s q with
    | error t =>
      rw [hpq] at h1 h2
      exact ⟨h1, h2⟩
    | ok t =>
      rw [hpq] at h1 h2
      exact ih t h1 h2 (fun x hx => hL x (List.mem_cons_of_mem q hx))

theorem applyOp_preserves_nonneg (verify : String → GatewayResp) (s : State) (op : Op)
    (hs : StateNonneg s) (hp : PlansNonneg s)
    (hv : ∀ r, 0 ≤ (verify r).data.amount)
    (hop : OpNonneg op) :
    StateNonneg (applyOp verify s op) ∧ PlansNonneg (applyOp verify s op) := by
  cases op with
  | fundOp u a r =>
    refine ⟨fund_preserves_nonneg s u a r hs hop, ?_⟩
    intro q hq
    simp only [applyOp] at hq
    rw [fundState_plans] at hq
    exact hp q hq
  | confirmOp u r =>
    refine ⟨confirm_preserves_nonneg verify s u r hs (hv r), ?_⟩
    intro q hq
    simp only [applyOp] at hq
    rw [confirmPayment_plans] at hq
    exact hp q hq
  | disburseOp now =>
    exact runPlans_preserves_nonneg (duePlans s now) s hs hp
      (fun q hq => hp q ((mem_duePlans s now q).mp hq).1)

theorem applyOps_preserve_nonneg (verify : String → GatewayResp) (s : State)
    (ops : List Op) (hs : StateNonneg s) (hp : PlansNonneg s)
    (hv : ∀ r, 0 ≤ (verify r).data.amount)
    (hops : ∀ op ∈ ops, OpNonneg op) :
    StateNonneg (applyOps verify s ops) ∧ PlansNonneg (applyOps verify s ops) := by
  induction ops generalizing s with
  | nil => exact ⟨hs, hp⟩
  | cons op ops ih =>
    have h := applyOp_preserves_nonneg verify s op hs hp hv
      (hops op (List.mem_cons_self op ops))
    exact ih (applyOp verify s op) h.1 h.2
      (fun x hx => hops x (List.mem_cons_of_mem op hx))

/- A run succeeds when every due user has a wallet; a plan that is not due
is untouched. -/

theorem runPlans_ok (L : List DisbursementPlan) (s : State)
    (h : ∀ q ∈ L, (walletGet s q.user).isSome = true) :
    ∃ s1, runPlans s L = .ok s1 := by
  induction L generalizing s with
  | nil => exact ⟨s, rfl⟩
  | cons q L ih =>
    have hq := h q (List.mem_cons_self q L)
    cases hw : walletGet s q.user with
    | none => rw [hw] at hq; simp at hq
    | some w =>
      by_cases hlt : w.locked_balance < q.amount_per_disbursement
      · obtain ⟨s1, h1⟩ := ih s (fun x hx => h x (List.mem_cons_of_mem q hx))
        exact ⟨s1, by rw [runPlans_cons, processPlan_skip s q w hw hlt]; exact h1⟩
      · obtain ⟨s1, h1⟩ := ih (disburseState s q w) (fun x hx => by
          rw [walletGet_isSome_of_keys_eq (disburseState s q w) s x.user
            (disburseState_wallet_keys s q w)]
          exact h x (List.mem_cons_of_mem q hx))
        exact ⟨s1, by rw [runPlans_cons, processPlan_disburse s q w hw hlt]; exact h1⟩

theorem run_not_due (now : Int) (s : State) (p : DisbursementPlan)
    (hnd : (s.plans.map DisbursementPlan.user).Nodup)
    (hp : p ∈ s.plans)
    (hnot : ¬ (p.active = true ∧ p.next_disbursement ≤ now))
    (hall : ∀ q ∈ duePlans s now, (walletGet s q.user).isSome = true) :
    ∃ s2, process_disbursements now s = .ok s2 ∧
      walletGet s2 p.user = walletGet s p.user ∧
      planGet s2 p.user = some p ∧
      s2.transactions.filter (fun t => t.user == p.user)
        = s.transactions.filter (fun t => t.user == p.user) ∧
      s2.wallets.map Prod.fst = s.wallets.map Prod.fst ∧
      s2.plans.map DisbursementPlan.user = s.plans.map DisbursementPlan.user := by
  have hne : ∀ q ∈ duePlans s now, q.user ≠ p.user := by
    intro q hq e
    have hq1 := (mem_duePlans s now q).mp hq
    have hqp : q = p := List.inj_on_of_nodup_map hnd hq1.1 hp e
    exact hnot (hqp ▸ hq1.2)
  obtain ⟨s2, h1, h2, h3, h4, h5, h6⟩ := runPlans_frame p.user (duePlans s now) s hne hall
  exact ⟨s2, h1, h2, h3.trans (planGet_nodup_mem s p hnd hp), h4, h5, h6⟩

/- Claims. -/

/-- C1 (code bug evidence): confirming the same gateway-verified reference
twice credits the wallet twice. From the empty database, the first confirm
call for reference ref1, verified at 10000 kobo, leaves balance 10000
hundredths (100.00 naira) and one fund transaction; the second call for the
same reference leaves balance 20000 hundredths (200.00) while the
transaction table is unchanged, because the balance credit of views.py line
221 runs before the get_or_create deduplication of line 224. The claim says
the second call leaves the balance unchanged. -/
theorem confirm_twice_double_credits :
    (confirmPayment (verifyAt 10000) initialState 7 "ref1").1 = .ok ∧
    walletGet (confirmPayment (verifyAt 10000) initialState 7 "ref1").2 7
      = some ⟨10000, 0⟩ ∧
    (confirmPayment (verifyAt 10000)
      (confirmPayment (verifyAt 10000) initialState 7 "ref1").2 7 "ref1").1 = .ok ∧
    walletGet (confirmPayment (verifyAt 10000)
      (confirmPayment (verifyAt 10000) initialState 7 "ref1").2 7 "ref1").2 7
      = some ⟨20000, 0⟩ ∧
    ((confirmPayment (verifyAt 10000)
      (confirmPayment (verifyAt 10000) initialState 7 "ref1").2 7 "ref1").2).transactions
      = [⟨7, "fund", 10000, "ref1", "success"⟩] := by
  decide

/-- C3 counterexample: funding with the negative amount -5000 hundredths
(-50.00) does not fail with any amount validation error; it succeeds and
credits the wallet by that negative amount, refuting the claim that
amount > 0 is validated and violations leave the state unchanged. -/
theorem fund_accepts_negative_amount :
    fund initialState 3 (-5000) "R1"
      = .ok (fundSuccessState initialState 3 (-5000) "R1") ∧
    walletGet (fundState initialState 3 (-5000) "R1") 3 = some ⟨-5000, 0⟩ := by
  decide

/-- C3 amended: fund validates only the decimal format of amount and the
freshness of reference; every representable amount, of any sign, is
accepted and credited in full to the wallet balance. -/
theorem fund_no_sign_validation (s : State) (u : UserId) (a : Int) (r : String)
    (h1 : validDecimal a = true)
    (h2 : s.transactions.any (fun t => t.reference == r) = false) :
    fund s u a r = .ok (fundSuccessState s u a r) ∧
    walletGet (fundSuccessState s u a r) u
      = some ⟨(walletGetOrCreate s u).1.balance + a,
          (walletGetOrCreate s u).1.locked_balance⟩ :=
  ⟨fund_ok s u a r h1 h2, fundSuccessState_wallet_self s u a r⟩

/-- C3 amended, witness at amount -5000 on the empty database. -/
theorem fund_no_sign_validation_witness :
    fund initialState 4 (-5000) "R2"
      = .ok (fundSuccessState initialState 4 (-5000) "R2") ∧
    walletGet (fundSuccessState initialState 4 (-5000) "R2") 4
      = some ⟨(walletGetOrCreate initialState 4).1.balance + (-5000),
          (walletGetOrCreate initialState 4).1.locked_balance⟩ :=
  fund_no_sign_validation initialState 4 (-5000) "R2" (by decide) (by decide)

/-- C4: after a successful fund with reference r, a second fund call with
the same reference fails with the duplicate reference error and mutates
nothing; exactly one transaction with reference r exists and the balance
holds only the first credit. The second amount is assumed representable (a
malformed decimal would be rejected by field validation instead, also with
no mutation). -/
theorem fund_duplicate_reference_rejected (s : State) (u u2 : UserId) (a1 a2 : Int)
    (r : String) (s1 : State)
    (hval2 : validDecimal a2 = true)
    (h : fund s u a1 r = .ok s1) :
    fund s1 u2 a2 r = .duplicateReference ∧
    fundState s1 u2 a2 r = s1 ∧
    (s1.transactions.filter (fun t => t.reference == r)).length = 1 ∧
    walletGet s1 u = some ⟨(walletGetOrCreate s u).1.balance + a1,
      (walletGetOrCreate s u).1.locked_balance⟩ := by
  obtain ⟨hval1, hfresh, rfl⟩ := fund_ok_inversion s u a1 r s1 h
  have hdup : (fundSuccessState s u a1 r).transactions.any
      (fun t => t.reference == r) = true := by
    rw [fundSuccessState_transactions]
    simp
  have h2 : fund (fundSuccessState s u a1 r) u2 a2 r = .duplicateReference := by
    unfold fund
    rw [if_neg (by simp [hval2]), if_pos hdup]
  refine ⟨h2, ?_, ?_, fundSuccessState_wallet_self s u a1 r⟩
  · unfold fundState
    rw [h2]
  · rw [fundSuccessState_transactions, List.filter_append]
    have hnil : s.transactions.filter (fun t => t.reference == r) = [] := by
      rw [List.filter_eq_nil_iff]
      intro t ht
      exact List.any_eq_false.mp hfresh t ht
    rw [hnil]
    simp

/-- C4 witness: fund user 5 with 1000 under reference R4, then fund again
with 700 under the same reference. -/
theorem fund_duplicate_reference_rejected_witness :
    fund (fundSuccessState initialState 5 1000 "R4") 5 700 "R4" = .duplicateReference ∧
    fundState (fundSuccessState initialState 5 1000 "R4") 5 700 "R4"
      = fundSuccessState initialState 5 1000 "R4" ∧
    ((fundSuccessState initialState 5 1000 "R4").transactions.filter
      (fun t => t.reference == "R4")).length = 1 ∧
    walletGet (fundSuccessState initialState 5 1000 "R4") 5
      = some ⟨(walletGetOrCreate initialState 5).1.balance + 1000,
          (walletGetOrCreate initialState 5).1.locked_balance⟩ :=
  fund_duplicate_reference_rejected initialState 5 5 1000 700 "R4"
    (fundSuccessState initialState 5 1000 "R4") (by decide) (by decide)

/-- C5: a scheduler disbursement step (the loop body of tasks.py lines 36
to 58, in particular the transfer of lines 42 to 44) leaves the sum
balance + locked_balance of every wallet unchanged: the debit from
locked_balance equals the credit to balance. -/
theorem disbursement_step_conserves_sum (s : State) (p : DisbursementPlan) (v : UserId)
    (w w2 : Wallet) (hv : walletGet s v = some w)
    (hv2 : walletGet (exceptState (processPlan s p)) v = some w2) :
    w2.balance + w2.locked_balance = w.balance + w.locked_balance := by
  cases hw : walletGet s p.user with
  | none =>
    rw [processPlan_missing s p hw] at hv2
    simp only [exceptState] at hv2
    rw [hv] at hv2
    rw [Option.some.inj hv2]
  | some w0 =>
    by_cases hlt : w0.locked_balance < p.amount_per_disbursement
    · rw [processPlan_skip s p w0 hw hlt] at hv2
      simp only [exceptState] at hv2
      rw [hv] at hv2
      rw [Option.some.inj hv2]
    · rw [processPlan_disburse s p w0 hw hlt] at hv2
      simp only [exceptState] at hv2
      by_cases hvp : v = p.user
      · subst hvp
        rw [disburseState_wallet_self s p w0 hw] at hv2
        rw [hv] at hw
        have hww : w = w0 := Option.some.inj hw
        rw [← Option.some.inj hv2, hww]
        show w0.balance + p.amount_per_disbursement
          + (w0.locked_balance - p.amount_per_disbursement) = _
        ring
      · rw [disburseState_wallet_ne s p w0 v hvp] at hv2
        rw [hv] at hv2
        rw [Option.some.inj hv2]

/-- C5 witness: the step on stateA (user 1, wallet 5 and 10, plan of 3)
keeps the sum at 15. -/
theorem disbursement_step_conserves_sum_witness :
    (8 : Int) + 7 = 5 + 10 :=
  disbursement_step_conserves_sum stateA planA 1 ⟨5, 10⟩ ⟨8, 7⟩ (by decide) (by decide)

/-- C6: for a due active plan whose wallet covers the amount, one scheduler
run moves exactly amount_per_disbursement from locked_balance to balance,
the transactions of that user grow by exactly one disburse transaction of
that amount, and next_disbursement advances from its previous value by
exactly one day (86400 s) for a daily plan and seven days for a weekly
plan, not relative to now. Plan users are unique (OneToOne) and every due
user has a wallet (otherwise the run raises). -/
theorem scheduler_disburses_due_plan (now : Int) (s : State) (p : DisbursementPlan)
    (w : Wallet)
    (hnd : (s.plans.map DisbursementPlan.user).Nodup)
    (hmem : p ∈ s.plans) (hactive : p.active = true)
    (hdue : p.next_disbursement ≤ now)
    (hw : walletGet s p.user = some w)
    (hge : p.amount_per_disbursement ≤ w.locked_balance)
    (htype : p.plan_type = "daily" ∨ p.plan_type = "weekly")
    (hall : ∀ q ∈ duePlans s now, (walletGet s q.user).isSome = true) :
    ∃ s2, process_disbursements now s = .ok s2 ∧
      walletGet s2 p.user = some ⟨w.balance + p.amount_per_disbursement,
        w.locked_balance - p.amount_per_disbursement⟩ ∧
      (∃ ref, s2.transactions.filter (fun t => t.user == p.user)
        = s.transactions.filter (fun t => t.user == p.user)
          ++ [⟨p.user, "disburse", p.amount_per_disbursement, ref, "success"⟩]) ∧
      planGet s2 p.user = some { p with next_disbursement :=
        p.next_disbursement + (if p.plan_type = "daily" then 86400 else 7 * 86400) } := by
  have hmemdue : p ∈ duePlans s now :=
    (mem_duePlans s now p).mpr ⟨hmem, hactive, hdue⟩
  obtain ⟨s2, h1, h2, h3, h4, h5, h6⟩ :=
    run_disburses now s p w hnd hmemdue hw (not_lt.mpr hge) hall
  refine ⟨s2, h1, h2, h4, ?_⟩
  rw [h3]
  have hadv : advanceOf p.plan_type
      = (if p.plan_type = "daily" then 86400 else 7 * 86400) := by
    rcases htype with ht | ht <;> rw [ht] <;> rfl
  rw [hadv]

/-- C6 witness: stateA at time 0 disburses planA (daily, amount 3) moving
3 from locked to balance and advancing next_disbursement to 86400. -/
theorem scheduler_disburses_due_plan_witness :
    ∃ s2, process_disbursements 0 stateA = .ok s2 ∧
      walletGet s2 1 = some ⟨5 + 3, 10 - 3⟩ ∧
      (∃ ref, s2.transactions.filter (fun t => t.user == 1)
        = stateA.transactions.filter (fun t => t.user == 1)
          ++ [⟨1, "disburse", 3, ref, "success"⟩]) ∧
      planGet s2 1 = some { planA with next_disbursement :=
        planA.next_disbursement + (if planA.plan_type = "daily" then 86400 else 7 * 86400) } :=
  scheduler_disburses_due_plan 0 stateA planA ⟨5, 10⟩ (by decide) (by decide) (by decide)
    (by decide) (by decide) (by decide) (Or.inl (by decide)) (by decide)

/-- C7: a due plan whose wallet has locked_balance below
amount_per_disbursement is skipped for this cycle: the run completes
without error, the wallet is unchanged, the transactions of that user are
unchanged, and next_disbursement is not advanced, so the plan stays due. -/
theorem scheduler_skips_insufficient_locked (now : Int) (s : State)
    (p : DisbursementPlan) (w : Wallet)
    (hnd : (s.plans.map DisbursementPlan.user).Nodup)
    (hmem : p ∈ s.plans) (hactive : p.active = true)
    (hdue : p.next_disbursement ≤ now)
    (hw : walletGet s p.user = some w)
    (hlt : w.locked_balance < p.amount_per_disbursement)
    (hall : ∀ q ∈ duePlans s now, (walletGet s q.user).isSome = true) :
    ∃ s2, process_disbursements now s = .ok s2 ∧
      walletGet s2 p.user = some w ∧
      planGet s2 p.user = some p ∧
      s2.transactions.filter (fun t => t.user == p.user)
        = s.transactions.filter (fun t => t.user == p.user) := by
  have hmemdue : p ∈ duePlans s now :=
    (mem_duePlans s now p).mpr ⟨hmem, hactive, hdue⟩
  obtain ⟨s2, h1, h2, h3, h4, h5, h6⟩ :=
    run_skips now s p w hnd hmemdue hw hlt hall
  exact ⟨s2, h1, h2, h3, h4⟩

/-- C7 witness: stateB at time 0 (locked 10, plan amount 30) is left fully
unchanged by the run. -/
theorem scheduler_skips_insufficient_locked_witness :
    ∃ s2, process_disbursements 0 stateB = .ok s2 ∧
      walletGet s2 1 = some ⟨5, 10⟩ ∧
      planGet s2 1 = some planB ∧
      s2.transactions.filter (fun t => t.user == 1)
        = stateB.transactions.filter (fun t => t.user == 1) :=
  scheduler_skips_insufficient_locked 0 stateB planB ⟨5, 10⟩ (by decide) (by decide)
    (by decide) (by decide) (by decide) (by decide) (by decide)

/-- C10: funding operations leave locked_balance untouched. For the direct
fund and for the gateway confirm, every pre-existing wallet keeps its
locked_balance (only the balance field of the funded wallet changes), and
wallets of users other than the funded one are wholly unchanged. -/
theorem funding_preserves_locked (verify : String → GatewayResp) (s : State)
    (u : UserId) (a : Int) (r : String) (v : UserId) (w : Wallet)
    (hv : walletGet s v = some w) :
    (∃ b, walletGet (fundState s u a r) v = some ⟨b, w.locked_balance⟩) ∧
    (∃ b, walletGet (confirmPayment verify s u r).2 v = some ⟨b, w.locked_balance⟩) ∧
    (v ≠ u → walletGet (fundState s u a r) v = walletGet s v) ∧
    (v ≠ u → walletGet (confirmPayment verify s u r).2 v = walletGet s v) := by
  have hfund : ∀ hvu : v = u, walletGet (fundSuccessState s u a r) v
      = some ⟨(walletGetOrCreate s u).1.balance + a, w.locked_balance⟩ := by
    intro hvu
    subst hvu
    rw [fundSuccessState_wallet_self s v a r, walletGetOrCreate_some s v w hv]
  have hconf : ∀ hvu : v = u, walletGet (confirmCreditState verify s u r) v
      = some ⟨(walletGetOrCreate s u).1.balance + confirmAmount verify r,
          w.locked_balance⟩ := by
    intro hvu
    subst hvu
    rw [confirmCreditState_wallet_self verify s v r, walletGetOrCreate_some s v w hv]
  refine ⟨?_, ?_, ?_, ?_⟩
  · rcases fundState_cases s u a r with h | h
    · rw [h, hv]
      exact ⟨w.balance, rfl⟩
    · rw [h]
      by_cases hvu : v = u
      · rw [hfund hvu, walletGetOrCreate_some s u w (hvu ▸ hv)]
        exact ⟨w.balance + a, rfl⟩
      · rw [fundSuccessState_wallet_ne s u a r v hvu, hv]
        exact ⟨w.balance, rfl⟩
  · rcases confirmPayment_state_cases verify s u r with h | h | h
    · rw [h, hv]
      exact ⟨w.balance, rfl⟩
    · rw [h]
      by_cases hvu : v = u
      · rw [hconf hvu, walletGetOrCreate_some s u w (hvu ▸ hv)]
        exact ⟨w.balance + confirmAmount verify r, rfl⟩
      · rw [confirmCreditState_wallet_ne verify s u r v hvu, hv]
        exact ⟨w.balance, rfl⟩
    · rw [h]
      by_cases hvu : v = u
      · show ∃ b, walletGet (confirmCreditState verify s u r) v
          = some ⟨b, w.locked_balance⟩
        rw [hconf hvu, walletGetOrCreate_some s u w (hvu ▸ hv)]
        exact ⟨w.balance + confirmAmount verify r, rfl⟩
      · show ∃ b, walletGet (confirmCreditState verify s u r) v = some ⟨b, w.locked_balance⟩
        rw [confirmCreditState_wallet_ne verify s u r v hvu, hv]
        exact ⟨w.balance, rfl⟩
  · intro hvu
    rcases fundState_cases s u a r with h | h
    · rw [h]
    · rw [h]
      exact fundSuccessState_wallet_ne s u a r v hvu
  · intro hvu
    rcases confirmPayment_state_cases verify s u r with h | h | h
    · rw [h]
    · rw [h]
      exact confirmCreditState_wallet_ne verify s u r v hvu
    · rw [h]
      exact confirmCreditState_wallet_ne verify s u r v hvu

/-- C10 witness: funding user 1 of stateA by 7, or confirming 300 kobo for
user 1, keeps locked_balance 10. -/
theorem funding_preserves_locked_witness :
    (∃ b, walletGet (fundState stateA 1 7 "W1") 1 = some ⟨b, 10⟩) ∧
    (∃ b, walletGet (confirmPayment (verifyAt 300) stateA 1 "W1").2 1 = some ⟨b, 10⟩) ∧
    ((1 : UserId) ≠ 1 → walletGet (fundState stateA 1 7 "W1") 1 = walletGet stateA 1) ∧
    ((1 : UserId) ≠ 1 →
      walletGet (confirmPayment (verifyAt 300) stateA 1 "W1").2 1 = walletGet stateA 1) :=
  funding_preserves_locked (verifyAt 300) stateA 1 7 "W1" 1 ⟨5, 10⟩ (by decide)

/-- C2 counterexample: the single operation fund(user 1, -5000, R1) on the
empty database succeeds and leaves balance -5000 < 0: the invariant
balance >= 0 does not hold after every operation, because no operation
validates the sign of amounts. -/
theorem negative_fund_breaks_nonneg_invariant :
    walletGet (applyOps (verifyAt 0) initialState [.fundOp 1 (-5000) "R1"]) 1
      = some ⟨-5000, 0⟩ ∧
    ¬ StateNonneg (applyOps (verifyAt 0) initialState [.fundOp 1 (-5000) "R1"]) := by
  constructor
  · decide
  · intro h
    have h2 := h (1, ⟨-5000, 0⟩) (by decide)
    exact absurd h2.1 (by decide)

/-- C2 (amended): under the provisos the code does not enforce — every
direct fund amount nonnegative, the gateway reporting nonnegative amounts,
and every plan with a nonnegative amount_per_disbursement — each sequence
of fund, confirm and scheduler operations preserves balance >= 0 and
locked_balance >= 0 for all wallets. Without the provisos the invariant
fails, as the counterexample shows. -/
theorem ops_preserve_nonneg_invariant (verify : String → GatewayResp) (s : State)
    (ops : List Op) (hs : StateNonneg s) (hp : PlansNonneg s)
    (hv : ∀ r, 0 ≤ (verify r).data.amount)
    (hops : ∀ op ∈ ops, OpNonneg op) :
    StateNonneg (applyOps verify s ops) :=
  (applyOps_preserve_nonneg verify s ops hs hp hv hops).1

/-- C2 witness: a fund of 500, a confirm of 200 kobo and a scheduler run on
stateA keep every wallet nonnegative. -/
theorem ops_preserve_nonneg_invariant_witness :
    StateNonneg (applyOps (verifyAt 200) stateA
      [.fundOp 1 500 "W9", .confirmOp 1 "W10", .disburseOp 0]) :=
  ops_preserve_nonneg_invariant (verifyAt 200) stateA
    [.fundOp 1 500 "W9", .confirmOp 1 "W10", .disburseOp 0]
    (by decide) (by decide) (fun _ => by show (0 : Int) ≤ 200; decide)
    (by
      intro op hop
      simp only [List.mem_cons, List.not_mem_nil, or_false] at hop
      rcases hop with rfl | rfl | rfl
      · show (0 : Int) ≤ 500
        decide
      · trivial
      · trivial)

/-- C9 counterexample: in stateC both plans are due and the plan of user 2
(amount 30, locked balance 100) could disburse, but processing the plan of
user 1, whose wallet row is missing, raises and aborts the whole run: the
final state is an error carrying stateC unchanged, so the remaining due
plan was not processed and no transaction was created. -/
theorem scheduler_failure_not_isolated :
    planC2 ∈ duePlans stateC 0 ∧
    walletGet stateC planC2.user = some ⟨0, 100⟩ ∧
    ¬ ((⟨0, 100⟩ : Wallet).locked_balance < planC2.amount_per_disbursement) ∧
    process_disbursements 0 stateC = .error stateC ∧
    (exceptState (process_disbursements 0 stateC)).transactions = [] := by
  refine ⟨by decide, by decide, by decide, by decide, by decide⟩

/-- C9 (amended): process_disbursements has no per-plan exception handling.
When the loop reaches a due plan whose user has no wallet row,
Wallet.objects.get raises and the run aborts with the effects made so far:
every remaining due plan of the batch is left unprocessed. -/
theorem scheduler_failure_aborts_batch (now : Int) (s : State)
    (L1 : List DisbursementPlan) (q : DisbursementPlan) (L2 : List DisbursementPlan)
    (s1 : State)
    (hdue : duePlans s now = L1 ++ q :: L2)
    (hrun1 : runPlans s L1 = .ok s1)
    (hmissing : walletGet s1 q.user = none) :
    process_disbursements now s = .error s1 := by
  unfold process_disbursements
  rw [hdue, runPlans_append, hrun1]
  show runPlans s1 (q :: L2) = .error s1
  rw [runPlans_cons, processPlan_missing s1 q hmissing]

/-- C9 witness: stateC aborts at its first plan with no prior effects. -/
theorem scheduler_failure_aborts_batch_witness :
    process_disbursements 0 stateC = .error stateC :=
  scheduler_failure_aborts_batch 0 stateC [] planC1 [planC2] stateC
    (by decide) (by decide) (by decide)

/-- C8: when each due plan advances past now on disbursement, running the
scheduler twice in immediate succession at the same time disburses every
plan at most once: the second run selects only plans the first run
skipped, skips them again, and returns the state of the first run
unchanged. Plan users are unique and every due user has a wallet. -/
theorem scheduler_rerun_is_noop (now : Int) (s : State)
    (hnd : (s.plans.map DisbursementPlan.user).Nodup)
    (hall : ∀ q ∈ duePlans s now, (walletGet s q.user).isSome = true)
    (hadv : ∀ q ∈ duePlans s now, now < q.next_disbursement + advanceOf q.plan_type) :
    ∃ s1, process_disbursements now s = .ok s1 ∧
      process_disbursements now s1 = .ok s1 := by
  obtain ⟨s1, hrun⟩ := runPlans_ok (duePlans s now) s hall
  refine ⟨s1, hrun, ?_⟩
  have hkeys := runPlans_keys (duePlans s now) s
  rw [hrun] at hkeys
  simp only [exceptState] at hkeys
  have hnd1 : (s1.plans.map DisbursementPlan.user).Nodup := by
    rw [hkeys.2]
    exact hnd
  apply runPlans_id
  intro r hr
  have hr1 := (mem_duePlans s1 now r).mp hr
  have hget1 : planGet s1 r.user = some r := planGet_nodup_mem s1 r hnd1 hr1.1
  have hrin : r.user ∈ s1.plans.map DisbursementPlan.user :=
    List.mem_map_of_mem _ hr1.1
  rw [hkeys.2] at hrin
  obtain ⟨q, hq, hqu⟩ := List.mem_map.mp hrin
  by_cases hqdue : q.active = true ∧ q.next_disbursement ≤ now
  · have hqmem : q ∈ duePlans s now := (mem_duePlans s now q).mpr ⟨hq, hqdue.1, hqdue.2⟩
    have hqw := hall q hqmem
    cases hw : walletGet s q.user with
    | none => rw [hw] at hqw; simp at hqw
    | some w =>
      by_cases hlt : w.locked_balance < q.amount_per_disbursement
      · obtain ⟨s2, h1, h2, h3, h4, h5, h6⟩ := run_skips now s q w hnd hqmem hw hlt hall
        have h1b : runPlans s (duePlans s now) = .ok s2 := h1
        rw [hrun] at h1b
        obtain rfl : s1 = s2 := Except.ok.inj h1b
        rw [← hqu] at hget1
        rw [hget1] at h3
        have hqr : r = q := Option.some.inj h3
        rw [hqr]
        exact processPlan_skip s1 q w h2 hlt
      · obtain ⟨s2, h1, h2, h3, h4, h5, h6⟩ := run_disburses now s q w hnd hqmem hw hlt hall
        have h1b : runPlans s (duePlans s now) = .ok s2 := h1
        rw [hrun] at h1b
        obtain rfl : s1 = s2 := Except.ok.inj h1b
        rw [← hqu] at hget1
        rw [hget1] at h3
        have hrq : r = { q with next_disbursement :=
            q.next_disbursement + advanceOf q.plan_type } := Option.some.inj h3
        have hrnext : r.next_disbursement
            = q.next_disbursement + advanceOf q.plan_type := by rw [hrq]
        exact absurd (hrnext ▸ hr1.2.2) (not_le.mpr (hadv q hqmem))
  · obtain ⟨s2, h1, h2, h3, h4, h5, h6⟩ := run_not_due now s q hnd hq hqdue hall
    have h1b : runPlans s (duePlans s now) = .ok s2 := h1
    rw [hrun] at h1b
    obtain rfl : s1 = s2 := Except.ok.inj h1b
    rw [← hqu] at hget1
    rw [hget1] at h3
    have hqr : r = q := Option.some.inj h3
    rw [hqr] at hr1
    exact absurd ⟨hr1.2.1, hr1.2.2⟩ hqdue

/-- C8 witness: stateA at time 0 (daily plan, locked 10 covering amount 3)
is disbursed by the first run; the immediate second run changes nothing. -/
theorem scheduler_rerun_is_noop_witness :
    ∃ s1, process_disbursements 0 stateA = .ok s1 ∧
      process_disbursements 0 s1 = .ok s1 :=
  scheduler_rerun_is_noop 0 stateA (by decide) (by decide)
    (by
      intro q hq
      have hq2 : q = planA := by
        have : duePlans stateA 0 = [planA] := by decide
        rw [this] at hq
        simpa using hq
      rw [hq2]
      decide)

